import Mathlib

/-!
Verification of the shiftapi roster generator against its specification.

The Python sources under `app/` are shallowly embedded below: each
`model.Add(...)` call of a constraint-encoder method becomes one conjunct of a
satisfaction predicate over an assignment `x : String → Nat → ShiftCode → Bool`
(staff name, 0-based day, shift code), and the pure helper computations become
Lean functions.  Machine integers are modelled by `Int`, the possibly
half-integer staffing values by `Rat`.
-/

namespace ShiftApi

/-- Modelled from the spec: the fixed 10-element shift-code alphabet exposed by
the missing `app/generator/mapping.py` (`SHIFT_TYPES`): `▲` early, `日` day,
`▼` late, `／` night-in, `×` night-out, `公` rest, `休` leave, `☆`
special-fixed, `_` unset-sentinel, and numbered preference glyphs `1..9`. -/
inductive ShiftCode where
  | early
  | dayShift
  | late
  | nightIn
  | nightOut
  | rest
  | leave
  | star
  | unset
  | num (n : Fin 9)
deriving DecidableEq

/-- Modelled from the spec: the key list of the `SHIFT_TYPES` map (the
iteration order of the dict is irrelevant: it is only ever summed over). -/
def allShiftTypes : List ShiftCode :=
  [.early, .dayShift, .late, .nightIn, .nightOut, .rest, .leave, .star, .unset]
    ++ (List.finRange 9).map ShiftCode.num

/-- `from_dict.ShiftCount`: the `{min, max}` bounds of one shift label. -/
structure ShiftCount where
  min : Int
  max : Int
deriving DecidableEq

/-- The fields of `from_dict.StaffData` that the verified code paths read.
`shift_counts` is the Python dict as an association list keyed by the raw
shift label (for example the string for night duty). -/
structure StaffData where
  name : String
  shift_counts : List (String × ShiftCount)
  holiday_override : Option Int
  reliability_override : Option Int
deriving DecidableEq

/-- The fields of `from_dict.RuleData` that the verified code paths read. -/
structure RuleData where
  holiday_count : Int
  consecutive_work_limit : Nat
  weekday_staff : Rat
  sunday_staff : Rat
  early_staff : Int
  late_staff : Int
  night_staff : Int
deriving DecidableEq

/-- A hope (pre-assigned) entry of `from_dict.ShiftData.entries`, with the
shift label already normalized to a code; `day` is 1-based as in the source. -/
structure HopeEntry where
  staff_name : String
  day : Nat
  shift_type : ShiftCode
deriving DecidableEq

/-- One solution entry as handed to the output adapter in `app/main.py`
(`solution.entries`): the shift code is the raw glyph string there and `day`
is 1-based. -/
structure SolEntry where
  staff_name : String
  day : Nat
  shift_type : String
deriving DecidableEq

/-- A boolean assignment of the model variables `x[staff, day, code]`
(0-based day), the valuation a solver solution induces. -/
abbrev Assignment := String → Nat → ShiftCode → Bool

/-- Python `a or b` on an optional integer: `None` and `0` are falsy. -/
def pyOrInt (o : Option Int) (b : Int) : Int :=
  match o with
  | none => b
  | some v => if v = 0 then b else v

/-- Python `staff_data.shift_counts.get(label, {}).get('max', 0)`. -/
def shiftMaxOf (sd : StaffData) (label : String) : Int :=
  match sd.shift_counts.lookup label with
  | some c => c.max
  | none => 0

/-- `staff_data.shift_counts.get('夜勤', {}).get('max', 0)` of
`pattern_library.add_night_pattern`: the night-duty max count, 0 when the
label is absent. -/
def nightMax (sd : StaffData) : Int :=
  shiftMaxOf sd "夜勤"

/-- Number of days among `0..D-1` on which `x` assigns code `c` to the staff:
the value of `sum(self.shifts[(name, d, c)] for d in range(D))`. -/
def staffCodeCount (x : Assignment) (name : String) (D : Nat) (c : ShiftCode) : Int :=
  ((List.range D).countP (fun d => x name d c) : Int)

/-- Number of staff assigned code `c` on day `d`: the value of
`sum(self.shifts[(st, d, c)] for st in self.staff_list)`. -/
def dayStaffCount (x : Assignment) (staffList : List String) (d : Nat) (c : ShiftCode) : Int :=
  (staffList.countP (fun s => x s d c) : Int)

/-- Python `val % 1` for a finite float `val`: the fractional part. -/
def pyMod1 (v : Rat) : Rat :=
  v - ⌊v⌋

/-- Python `int(val)`: truncation toward zero. -/
def pyInt (v : Rat) : Int :=
  if 0 ≤ v then ⌊v⌋ else ⌈v⌉

/-- `basic_library.add_one_shift_per_day`: for every staff and day exactly one
code is chosen (`sum(shifts[(staff, day, st)] for st in SHIFT_TYPES) == 1`). -/
def oneShiftPerDaySat (staffList : List String) (D : Nat) (x : Assignment) : Prop :=
  ∀ s ∈ staffList, ∀ d ∈ List.range D, allShiftTypes.countP (fun c => x s d c) = 1

/-- The target constant of the rest-count equality that
`basic_library.add_monthly_holiday_limit` adds for one staff: the global
`holiday_count` in the `holiday_override is None` branch, the override in the
other branch. -/
def holidayLimitTarget (sd : StaffData) (rule : RuleData) : Int :=
  match sd.holiday_override with
  | none => rule.holiday_count
  | some v => v

/-- `basic_library.add_monthly_holiday_limit`: per staff the number of rest
days equals `holiday_override` when it `is not None`, else the global
`holiday_count`. -/
def holidayLimitSat (sds : List StaffData) (rule : RuleData) (D : Nat) (x : Assignment) : Prop :=
  ∀ sd ∈ sds, staffCodeCount x sd.name D .rest = holidayLimitTarget sd rule

/-- `basic_library.add_under_shift_constraint`: the unset sentinel is forbidden
on every cell. -/
def underShiftSat (staffList : List String) (D : Nat) (x : Assignment) : Prop :=
  ∀ s ∈ staffList, ∀ d ∈ List.range D, x s d .unset = false

/-- The code's test for a hope entry pinning the special-fixed code at a cell
(`entry.staff_name == staff and entry.day-1 == day and entry.shift_type == '☆'`,
with `entry.day - 1 == day` rewritten as `entry.day == day + 1` over the
integers). -/
def hasStar (entries : List HopeEntry) (s : String) (d : Nat) : Bool :=
  entries.any (fun e => e.staff_name = s ∧ e.day = d + 1 ∧ e.shift_type = .star)

/-- `basic_library.add_star_shift_constraint`: at a hope-pinned cell the
special-fixed code is forced and every other code forbidden; everywhere else
the special-fixed code is forbidden. -/
def starShiftSat (staffList : List String) (D : Nat) (entries : List HopeEntry)
    (x : Assignment) : Prop :=
  ∀ s ∈ staffList, ∀ d ∈ List.range D,
    (hasStar entries s d = true →
      x s d .star = true ∧ ∀ c ∈ allShiftTypes, c ≠ .star → x s d c = false)
    ∧ (hasStar entries s d = false → x s d .star = false)

/-- The `val` of the day-shift branch of `basic_library.add_required_staff`:
`sunday_staff` on Sundays, `weekday_staff` otherwise; `isSunday d` stands for
`datetime(year, month, d+1).weekday() == 6`. -/
def dayShiftReq (rule : RuleData) (isSunday : Nat → Bool) (d : Nat) : Rat :=
  if isSunday d then rule.sunday_staff else rule.weekday_staff

/-- `basic_library.add_required_staff`: per-day staffing.  Early, late,
night-in and night-out counts are exact; the day-shift count is an exact
count unless the requirement passes the half-integer test, in which case it
is bounded by `math.floor(val)` and `math.ceil(val)`. -/
def requiredStaffSat (staffList : List String) (rule : RuleData) (isSunday : Nat → Bool)
    (D : Nat) (x : Assignment) : Prop :=
  ∀ d ∈ List.range D,
    dayStaffCount x staffList d .early = rule.early_staff
    ∧ dayStaffCount x staffList d .late = rule.late_staff
    ∧ dayStaffCount x staffList d .nightIn = rule.night_staff
    ∧ dayStaffCount x staffList d .nightOut = rule.night_staff
    ∧ (if |pyMod1 (dayShiftReq rule isSunday d) - 1/2| < 1/100 then
         (⌊dayShiftReq rule isSunday d⌋ ≤ dayStaffCount x staffList d .dayShift
          ∧ dayStaffCount x staffList d .dayShift ≤ ⌈dayShiftReq rule isSunday d⌉)
       else
         dayStaffCount x staffList d .dayShift = pyInt (dayShiftReq rule isSunday d))

/-- `pattern_library.add_night_pattern`: the night macro-pattern clauses.
For a staff whose night max count is 0 the night-out code is forbidden on day
0; for every `d` in `range(D-2)`, night-in on `d` forces night-out on `d+1`
and rest on `d+2`, and night-out on `d+1` forces night-in on `d`; when `D > 1`
night-out on day 0 forces rest on day 1; when `D ≥ 2` night-in on day `D-2`
forces night-out on day `D-1`. -/
def nightPatternSat (sds : List StaffData) (D : Nat) (x : Assignment) : Prop :=
  (∀ sd ∈ sds, nightMax sd = 0 → x sd.name 0 .nightOut = false)
  ∧ (∀ s ∈ sds.map StaffData.name, ∀ d ∈ List.range (D - 2),
      (x s d .nightIn = true → x s (d + 1) .nightOut = true)
      ∧ (x s d .nightIn = true → x s (d + 2) .rest = true)
      ∧ (x s (d + 1) .nightOut = true → x s d .nightIn = true))
  ∧ (∀ s ∈ sds.map StaffData.name, 1 < D →
      x s 0 .nightOut = true → x s 1 .rest = true)
  ∧ (∀ s ∈ sds.map StaffData.name, 2 ≤ D →
      x s (D - 2) .nightIn = true → x s (D - 1) .nightOut = true)

/-- The per-day summand of `sequence_library.add_consecutive_work_limit`: the
number of non-rest codes set on the day, with the night-in variable counted a
second time on the last day of the month. -/
def workDayCount (x : Assignment) (name : String) (D d : Nat) : Nat :=
  (allShiftTypes.filter (fun c => c ≠ .rest)).countP (fun c => x name d c)
    + (if d = D - 1 then (if x name d .nightIn then 1 else 0) else 0)

/-- `sequence_library.add_consecutive_work_limit`: with
`L = rule.consecutive_work_limit`, for every `start_day` in
`range(D - L + 1)` (empty when negative, hence `D + 1 - L` under truncated
subtraction) the work-day counts of the `min(L+1, D - start_day)` following
days sum to at most `L`. -/
def consecutiveWorkLimitSat (sds : List StaffData) (rule : RuleData) (D : Nat)
    (x : Assignment) : Prop :=
  ∀ sd ∈ sds, ∀ start ∈ List.range (D + 1 - rule.consecutive_work_limit),
    ((List.range (min (rule.consecutive_work_limit + 1) (D - start))).map
      (fun i => workDayCount x sd.name D (start + i))).sum
      ≤ rule.consecutive_work_limit

/-- The base/other selection of the mandatory all-days pairing branch of
`pattern_library.add_pairing_constraint`: the owning staff with its source
code when its source max count is at most the referenced staff's target max
count, otherwise the referenced staff with the peer code.  The result lists
the base name, base code, other name and other code.  `cnt` and `tgt` are the
raw labels of the constraint's `count` and `target` fields (used for the
`shift_counts` lookups); `srcT` and `tgtT` their normalized codes. -/
def pairingBase (owner peer : StaffData) (cnt tgt : String) (srcT tgtT : ShiftCode) :
    String × ShiftCode × String × ShiftCode :=
  if shiftMaxOf owner cnt ≤ shiftMaxOf peer tgt then
    (owner.name, srcT, peer.name, tgtT)
  else
    (peer.name, tgtT, owner.name, srcT)

/-- The clauses added by `pattern_library.add_pairing_constraint` for one
mandatory pairing constraint with `times == "全て"`: the per-day reified
`is_pair` variables (which exist in the model but are otherwise unused in this
branch) and, for every day, the implication from the base staff's code to the
other staff's code. -/
def pairingMandatoryAllSat (owner peer : StaffData) (cnt tgt : String)
    (srcT tgtT : ShiftCode) (D : Nat) (x : Assignment) : Prop :=
  let b := pairingBase owner peer cnt tgt srcT tgtT
  ∃ isPair : Nat → Bool,
    (∀ d ∈ List.range D,
      (isPair d = true → x owner.name d srcT = true)
      ∧ (isPair d = true → x peer.name d tgtT = true)
      ∧ (isPair d = false → ¬(x owner.name d srcT = true ∧ x peer.name d tgtT = true)))
    ∧ (∀ d ∈ List.range D, x b.1 d b.2.1 = true → x b.2.2.1 d b.2.2.2 = true)

/-- The loop body state of the output conversion in `app/main.py`
(`generate_shift` endpoint): `shifts_dict` is a dict from staff name to an
array created as `[''] * 32`, and each solution entry writes its glyph at
index `entry.day`. -/
def buildShiftsDictAux (acc : String → Option (List String)) :
    List SolEntry → (String → Option (List String))
  | [] => acc
  | e :: rest =>
      let cur := (acc e.staff_name).getD (List.replicate 32 "")
      buildShiftsDictAux
        (fun n => if n = e.staff_name then some (cur.set e.day e.shift_type) else acc n)
        rest

/-- The full output conversion of `app/main.py`: fold the solution entries
into the (initially empty) `shifts_dict`. -/
def buildShiftsDict (entries : List SolEntry) : String → Option (List String) :=
  buildShiftsDictAux (fun _ => none) entries

/-- The reading accessor used to reason about `shifts_dict` cells: the string
stored at index `d` of the array kept for staff `s`, the empty string when
the staff has no array yet. -/
def cellVal (f : String → Option (List String)) (s : String) (d : Nat) : String :=
  ((f s).getD (List.replicate 32 "")).getD d ""

/-- The star-entry count of `basic_prefix._check_shift_count_conflicts`:
`len([entry for entry in shift_data.entries if entry.staff_name ==
staff_data.name and entry.shift_type == "☆"])`. -/
def starShiftCount (sd : StaffData) (entries : List HopeEntry) : Int :=
  ((entries.filter (fun e => e.staff_name = sd.name ∧ e.shift_type = .star)).length : Int)

/-- The working-day budget of `basic_prefix._check_shift_count_conflicts`:
`month_days - (holiday_override or holiday_count) - star_shift_count`. -/
def preflightWorkingDays (sd : StaffData) (entries : List HopeEntry) (rule : RuleData)
    (monthDays : Nat) : Int :=
  (monthDays : Int) - pyOrInt sd.holiday_override rule.holiday_count - starShiftCount sd entries

/-- `total_min` of `basic_prefix._check_shift_count_conflicts`: the sum of the
per-label minimum counts with the night-duty label counted twice. -/
def totalMin (sd : StaffData) : Int :=
  (sd.shift_counts.map (fun p => p.2.min * (if p.1 = "夜勤" then 2 else 1))).sum

/-- `total_max` of `basic_prefix._check_shift_count_conflicts`: the sum of the
per-label maximum counts with the night-duty label counted twice. -/
def totalMax (sd : StaffData) : Int :=
  (sd.shift_counts.map (fun p => p.2.max * (if p.1 = "夜勤" then 2 else 1))).sum

/-- The per-staff violation test of
`basic_prefix._check_shift_count_conflicts`: some label has min above max, or
the doubled-night minima exceed the working days, or the doubled-night maxima
fall short of them. -/
def staffCountConflict (sd : StaffData) (entries : List HopeEntry) (rule : RuleData)
    (monthDays : Nat) : Bool :=
  sd.shift_counts.any (fun p => decide (p.2.max < p.2.min))
  || decide (preflightWorkingDays sd entries rule monthDays < totalMin sd)
  || decide (totalMax sd < preflightWorkingDays sd entries rule monthDays)

/-- `basic_prefix._check_shift_count_conflicts`: returns `true` (an error was
reported, generation aborts before the solver runs) when some staff violates
one of the three count conditions. -/
def checkShiftCountConflicts (sds : List StaffData) (entries : List HopeEntry)
    (rule : RuleData) (monthDays : Nat) : Bool :=
  sds.any (fun sd => staffCountConflict sd entries rule monthDays)

/-- The reliability map built by the balanced-mode child process
`generate.ShiftGenerator.solve_in_process`:
`staff_reliability_map[sd.name] = sd.reliability_override or 30`. -/
def reliabilityMapChild (sds : List StaffData) : List (String × Int) :=
  sds.map (fun sd => (sd.name, pyOrInt sd.reliability_override 30))

/-- The reliability map built in-process by
`generate.ShiftGenerator.generate_shift`: the override when it
`is not None`, else the default 30. -/
def reliabilityMapParent (sds : List StaffData) : List (String × Int) :=
  sds.map (fun sd =>
    (sd.name,
      match sd.reliability_override with
      | some v => v
      | none => 30))

/-- The holiday budget used by
`sequence_prefix.check_night_shift_holiday_conflict`:
`staff.holiday_override or rule_data.holiday_count`. -/
def nightConflictHolidayCount (sd : StaffData) (rule : RuleData) : Int :=
  pyOrInt sd.holiday_override rule.holiday_count

/-! Concrete fixtures used by the witness theorems. -/

/-- A fixture assignment: the rest code on days 0 and 1, nothing anywhere
else. -/
def fxAsgRest2 : Assignment :=
  fun _ d c => decide (c = ShiftCode.rest ∧ d < 2)

/-- A fixture assignment for the star-discipline witness: staff `A` has the
special-fixed code on day 1 and the rest code on every other day. -/
def fxStarAsg : Assignment :=
  fun s d c =>
    decide (s = "A" ∧ ((d = 1 ∧ c = ShiftCode.star) ∨ (d ≠ 1 ∧ c = ShiftCode.rest)))

/-! Helper lemmas. -/

theorem countP_imp_rev {α : Type} {l : List α} {p q : α → Bool}
    (h : ∀ a ∈ l, p a = true → q a = true)
    (hc : l.countP p = l.countP q) :
    ∀ a ∈ l, q a = true → p a = true := by
  induction l with
  | nil => intro a ha; simp at ha
  | cons b t ih =>
      have hmono : t.countP p ≤ t.countP q :=
        List.countP_mono_left (fun a ha hpa => h a (List.mem_cons_of_mem b ha) hpa)
      intro a ha hqa
      rcases List.mem_cons.mp ha with rfl | hat
      · by_cases hpb : p a = true
        · exact hpb
        · exfalso
          have hpb' : p a = false := Bool.eq_false_iff.mpr hpb
          by_cases hqb : q a = true
          · rw [List.countP_cons, List.countP_cons, hpb', hqb] at hc
            simp at hc
            omega
          · exact hqb hqa
      · by_cases hpb : p b = true
        · have hqb := h b (List.mem_cons_self b t) hpb
          rw [List.countP_cons, List.countP_cons, hpb, hqb] at hc
          simp at hc
          exact ih (fun a ha hpa => h a (List.mem_cons_of_mem b ha) hpa) hc a hat hqa
        · have hpb' : p b = false := Bool.eq_false_iff.mpr hpb
          by_cases hqb : q b = true
          · exfalso
            rw [List.countP_cons, List.countP_cons, hpb', hqb] at hc
            simp at hc
            omega
          · have hqb' : q b = false := Bool.eq_false_iff.mpr hqb
            rw [List.countP_cons, List.countP_cons, hpb', hqb'] at hc
            simp at hc
            exact ih (fun a ha hpa => h a (List.mem_cons_of_mem b ha) hpa) hc a hat hqa

/-! Claim theorems. -/

/-- C2: for every staff in a solution satisfying the monthly-holiday clauses,
the number of days assigned the rest code equals the staff's
`holiday_override` when it is set (including when it is 0) and the global
rule's `holiday_count` otherwise. -/
theorem holiday_total_eq_override_or_global
    (sds : List StaffData) (rule : RuleData) (D : Nat) (x : Assignment)
    (h : holidayLimitSat sds rule D x) :
    ∀ sd ∈ sds,
      staffCodeCount x sd.name D .rest = sd.holiday_override.getD rule.holiday_count := by
  intro sd hsd
  have hx := h sd hsd
  cases hov : sd.holiday_override with
  | none => simpa [holidayLimitTarget, hov] using hx
  | some v => simpa [holidayLimitTarget, hov] using hx

theorem holiday_total_eq_override_or_global_witness :
    holidayLimitSat [⟨"A", [], some 2, none⟩] ⟨5, 5, 1, 1, 1, 1, 1⟩ 3 fxAsgRest2
    ∧ staffCodeCount fxAsgRest2 "A" 3 .rest = Option.getD (some 2) (5:Int) :=
  ⟨by unfold holidayLimitSat; decide,
   holiday_total_eq_override_or_global [⟨"A", [], some 2, none⟩] ⟨5, 5, 1, 1, 1, 1, 1⟩ 3
     fxAsgRest2 (by unfold holidayLimitSat; decide) ⟨"A", [], some 2, none⟩ (by decide)⟩

/-- C5: in a solution satisfying the star and unset-sentinel clauses, no cell
carries the unset sentinel, a cell carries the special-fixed code iff a hope
entry pins it there, and at a pinned cell every code in the alphabet other
than the special-fixed one is off. -/
theorem star_and_unset_discipline
    (staffList : List String) (D : Nat) (entries : List HopeEntry) (x : Assignment)
    (hstar : starShiftSat staffList D entries x)
    (hunder : underShiftSat staffList D x) :
    ∀ s ∈ staffList, ∀ d, d < D →
      x s d .unset = false
      ∧ (x s d .star = true ↔ hasStar entries s d = true)
      ∧ (hasStar entries s d = true →
          ∀ c ∈ allShiftTypes, c ≠ .star → x s d c = false) := by
  intro s hs d hd
  have h1 := hstar s hs d (List.mem_range.mpr hd)
  have h2 := hunder s hs d (List.mem_range.mpr hd)
  refine ⟨h2, ?_, fun hpin => (h1.1 hpin).2⟩
  constructor
  · intro hx
    by_contra hpin
    have hpin' : hasStar entries s d = false := Bool.eq_false_iff.mpr hpin
    rw [h1.2 hpin'] at hx
    exact Bool.false_ne_true hx
  · intro hpin
    exact (h1.1 hpin).1

theorem star_and_unset_discipline_witness :
    starShiftSat ["A"] 2 [⟨"A", 2, .star⟩] fxStarAsg
    ∧ underShiftSat ["A"] 2 fxStarAsg
    ∧ (fxStarAsg "A" 1 .unset = false
       ∧ (fxStarAsg "A" 1 .star = true ↔ hasStar [⟨"A", 2, .star⟩] "A" 1 = true)) :=
  ⟨by unfold starShiftSat; decide, by unfold underShiftSat; decide,
   let h := star_and_unset_discipline ["A"] 2 [⟨"A", 2, .star⟩] fxStarAsg
     (by unfold starShiftSat; decide) (by unfold underShiftSat; decide)
     "A" (by decide) 1 (by decide)
   ⟨h.1, h.2.1⟩⟩

/-- C10: when a staff's `holiday_override` is 0 the model's monthly-holiday
clause forces exactly zero rest days (its target is the override, because the
model tests `is None`), while the pre-flight checks coalesce the budget with
Python `or` and hence use the global `holiday_count` for that staff, both in
the working-day computation of `_check_shift_count_conflicts` and in the
holiday budget of `check_night_shift_holiday_conflict`; the two budgets
disagree whenever the global count is nonzero. -/
theorem holiday_override_zero_divergence
    (sd : StaffData) (rule : RuleData) (entries : List HopeEntry) (monthDays : Nat)
    (h : sd.holiday_override = some 0) :
    (∀ D x, holidayLimitSat [sd] rule D x → staffCodeCount x sd.name D .rest = 0)
    ∧ preflightWorkingDays sd entries rule monthDays
        = (monthDays : Int) - rule.holiday_count - starShiftCount sd entries
    ∧ nightConflictHolidayCount sd rule = rule.holiday_count
    ∧ (rule.holiday_count ≠ 0 →
        nightConflictHolidayCount sd rule ≠ holidayLimitTarget sd rule) := by
  refine ⟨?_, ?_, ?_, ?_⟩
  · intro D x hsat
    have := hsat sd (List.mem_singleton.mpr rfl)
    simpa [holidayLimitTarget, h] using this
  · simp [preflightWorkingDays, pyOrInt, h]
  · simp [nightConflictHolidayCount, pyOrInt, h]
  · intro hnz
    simp [nightConflictHolidayCount, pyOrInt, holidayLimitTarget, h]
    exact hnz

theorem holiday_override_zero_divergence_witness :
    (⟨"A", [], some 0, none⟩ : StaffData).holiday_override = some 0
    ∧ (preflightWorkingDays ⟨"A", [], some 0, none⟩ [] ⟨9, 5, 1, 1, 1, 1, 1⟩ 30
        = (30 : Int) - (9 : Int) - starShiftCount ⟨"A", [], some 0, none⟩ []
      ∧ nightConflictHolidayCount ⟨"A", [], some 0, none⟩ ⟨9, 5, 1, 1, 1, 1, 1⟩ = 9) :=
  ⟨by decide,
   let h := holiday_override_zero_divergence ⟨"A", [], some 0, none⟩ ⟨9, 5, 1, 1, 1, 1, 1⟩
     [] 30 (by decide)
   ⟨h.2.1, h.2.2.1⟩⟩

/-- C9 counterexample: on a staff whose `reliability_override` is 0 the
balanced-mode child process (`solve_in_process`, Python `or` coalescing) and
the in-process path (`generate_shift`, `is not None` test) build different
reliability maps, so the two assemblies are not identical on every input. -/
theorem reliability_map_child_parent_differ :
    reliabilityMapChild [⟨"A", [], none, some 0⟩]
      ≠ reliabilityMapParent [⟨"A", [], none, some 0⟩] := by
  decide

/-- C9 amended: the reliability maps built by the balanced-mode child process
and by the in-process assembly agree on every staff whose
`reliability_override` is not 0 (the child maps an override of 0 to the
default 30, the parent keeps it); in particular the maps are identical
whenever no staff has a zero override, and the parent's entry is always
`override ?? 30`. -/
theorem reliability_map_agree_without_zero_override
    (sds : List StaffData)
    (h : ∀ sd ∈ sds, sd.reliability_override ≠ some 0) :
    reliabilityMapChild sds = reliabilityMapParent sds
    ∧ reliabilityMapParent sds
        = sds.map (fun sd => (sd.name, sd.reliability_override.getD 30)) := by
  constructor
  · unfold reliabilityMapChild reliabilityMapParent
    apply List.map_congr_left
    intro sd hsd
    cases hov : sd.reliability_override with
    | none => simp [pyOrInt, hov]
    | some v =>
        have hv : v ≠ 0 := by
          intro hv0
          exact h sd hsd (by rw [hov, hv0])
        simp [pyOrInt, hov, hv]
  · unfold reliabilityMapParent
    apply List.map_congr_left
    intro sd _
    cases hov : sd.reliability_override with
    | none => simp [hov]
    | some v => simp [hov]

theorem reliability_map_agree_without_zero_override_witness :
    (∀ sd ∈ [(⟨"A", [], none, some 7⟩ : StaffData), ⟨"B", [], none, none⟩],
        sd.reliability_override ≠ some 0)
    ∧ reliabilityMapChild [⟨"A", [], none, some 7⟩, ⟨"B", [], none, none⟩]
        = reliabilityMapParent [⟨"A", [], none, some 7⟩, ⟨"B", [], none, none⟩] :=
  ⟨by decide,
   (reliability_map_agree_without_zero_override _ (by decide)).1⟩

/-- C7: the basic pre-flight work-count check reports an error (returns
`true`, emitting a notification and aborting generation before the solver)
iff some staff has a label with min above max, or per-label minima with night
counted twice exceeding the working days, or per-label maxima with night
counted twice below the working days, where the working days are the month
days minus the staff's holiday budget minus its star-entry count. -/
theorem check_shift_count_conflicts_iff
    (sds : List StaffData) (entries : List HopeEntry) (rule : RuleData) (monthDays : Nat) :
    checkShiftCountConflicts sds entries rule monthDays = true ↔
      ∃ sd ∈ sds,
        (∃ p ∈ sd.shift_counts, p.2.max < p.2.min)
        ∨ totalMin sd > preflightWorkingDays sd entries rule monthDays
        ∨ totalMax sd < preflightWorkingDays sd entries rule monthDays := by
  simp only [checkShiftCountConflicts, staffCountConflict, List.any_eq_true, gt_iff_lt,
    Bool.or_eq_true, decide_eq_true_eq, List.any_eq_true, Prod.exists]
  constructor
  · rintro ⟨sd, hsd, h⟩
    refine ⟨sd, hsd, ?_⟩
    rcases h with (h | h) | h
    · exact Or.inl h
    · exact Or.inr (Or.inl h)
    · exact Or.inr (Or.inr h)
  · rintro ⟨sd, hsd, h⟩
    refine ⟨sd, hsd, ?_⟩
    rcases h with h | h | h
    · exact Or.inl (Or.inl h)
    · exact Or.inl (Or.inr h)
    · exact Or.inr h

/-- C3: in a solution satisfying the required-staffing clauses, on every day
of the month the early, late, night-in and night-out counts equal the
respective requirements (night-in and night-out separately equal the night
requirement), and the day-shift count equals the day requirement when it is
an integer and lies between its floor and its ceiling when it is a
half-integer. -/
theorem required_staffing_in_solution
    (staffList : List String) (rule : RuleData) (isSunday : Nat → Bool) (D : Nat)
    (x : Assignment) (hr : requiredStaffSat staffList rule isSunday D x) :
    ∀ d, d < D →
      dayStaffCount x staffList d .early = rule.early_staff
      ∧ dayStaffCount x staffList d .late = rule.late_staff
      ∧ dayStaffCount x staffList d .nightIn = rule.night_staff
      ∧ dayStaffCount x staffList d .nightOut = rule.night_staff
      ∧ (∀ n : Int, dayShiftReq rule isSunday d = (n : Rat) →
          dayStaffCount x staffList d .dayShift = n)
      ∧ (∀ n : Int, dayShiftReq rule isSunday d = (n : Rat) + 1/2 →
          ⌊dayShiftReq rule isSunday d⌋ ≤ dayStaffCount x staffList d .dayShift
          ∧ dayStaffCount x staffList d .dayShift ≤ ⌈dayShiftReq rule isSunday d⌉) := by
  intro d hd
  obtain ⟨h1, h2, h3, h4, h5⟩ := hr d (List.mem_range.mpr hd)
  refine ⟨h1, h2, h3, h4, ?_, ?_⟩
  · intro n hn
    rw [hn] at h5
    have hfrac : pyMod1 ((n : Rat)) = 0 := by simp [pyMod1]
    have hcond : ¬ (|pyMod1 ((n : Rat)) - 1/2| < 1/100) := by
      rw [hfrac, abs_lt]
      norm_num
    rw [if_neg hcond] at h5
    rw [h5]
    unfold pyInt
    split
    · simp
    · simp
  · intro n hn
    rw [hn] at h5
    have hfl : ⌊(n : Rat) + 1/2⌋ = n := by
      rw [Int.floor_int_add]
      norm_num
    have hfrac : pyMod1 ((n : Rat) + 1/2) = 1/2 := by
      rw [pyMod1, hfl]
      ring
    have hcond : |pyMod1 ((n : Rat) + 1/2) - 1/2| < 1/100 := by
      rw [hfrac]
      norm_num
    rw [if_pos hcond] at h5
    rw [hn]
    exact h5

theorem required_staffing_in_solution_witness :
    requiredStaffSat ["A"] ⟨5, 5, 1/2, 0, 0, 0, 0⟩ (fun _ => false) 1 fxAsgRest2
    ∧ (dayStaffCount fxAsgRest2 ["A"] 0 .early = (0 : Int)
       ∧ (∀ n : Int, dayShiftReq ⟨5, 5, 1/2, 0, 0, 0, 0⟩ (fun _ => false) 0 = (n : Rat) + 1/2 →
            ⌊dayShiftReq ⟨5, 5, 1/2, 0, 0, 0, 0⟩ (fun _ => false) 0⌋
              ≤ dayStaffCount fxAsgRest2 ["A"] 0 .dayShift
            ∧ dayStaffCount fxAsgRest2 ["A"] 0 .dayShift
              ≤ ⌈dayShiftReq ⟨5, 5, 1/2, 0, 0, 0, 0⟩ (fun _ => false) 0⌉)) := by
  have hsat : requiredStaffSat ["A"] ⟨5, 5, 1/2, 0, 0, 0, 0⟩ (fun _ => false) 1 fxAsgRest2 := by
    intro d hd
    simp only [List.mem_range, Nat.lt_one_iff] at hd
    subst hd
    refine ⟨by decide, by decide, by decide, by decide, ?_⟩
    have hcond : |pyMod1 (dayShiftReq ⟨5, 5, 1/2, 0, 0, 0, 0⟩ (fun _ => false) 0) - 1/2| < 1/100 := by
      norm_num [pyMod1, dayShiftReq]
    rw [if_pos hcond]
    have hfl : ⌊dayShiftReq ⟨5, 5, 1/2, 0, 0, 0, 0⟩ (fun _ => false) 0⌋ = 0 := by
      norm_num [dayShiftReq]
    have hcl : ⌈dayShiftReq ⟨5, 5, 1/2, 0, 0, 0, 0⟩ (fun _ => false) 0⌉ = 1 := by
      unfold dayShiftReq
      norm_num
      rw [Int.ceil_eq_iff] <;> norm_num
    rw [hfl, hcl]
    refine ⟨by decide, by decide⟩
  have h := required_staffing_in_solution ["A"] ⟨5, 5, 1/2, 0, 0, 0, 0⟩ (fun _ => false) 1
    fxAsgRest2 hsat 0 (by decide)
  exact ⟨hsat, h.1, h.2.2.2.2.2⟩

/-- C4: in a solution satisfying the one-shift-per-day and
consecutive-work-limit clauses, every window of `consecutive_work_limit + 1`
consecutive days that lies within the month contains at least one rest day. -/
theorem consecutive_work_rest_in_window
    (sds : List StaffData) (rule : RuleData) (D : Nat) (x : Assignment)
    (hone : oneShiftPerDaySat (sds.map StaffData.name) D x)
    (hlim : consecutiveWorkLimitSat sds rule D x) :
    ∀ sd ∈ sds, ∀ start, start + rule.consecutive_work_limit < D →
      ∃ d, start ≤ d ∧ d ≤ start + rule.consecutive_work_limit
        ∧ x sd.name d .rest = true := by
  intro sd hsd start hstart
  by_contra hno
  push_neg at hno
  have hstart_mem : start ∈ List.range (D + 1 - rule.consecutive_work_limit) :=
    List.mem_range.mpr (by omega)
  have hsum := hlim sd hsd start hstart_mem
  have hmin : min (rule.consecutive_work_limit + 1) (D - start)
      = rule.consecutive_work_limit + 1 :=
    Nat.min_eq_left (by omega)
  rw [hmin] at hsum
  have hterm : ∀ t ∈ (List.range (rule.consecutive_work_limit + 1)).map
      (fun i => workDayCount x sd.name D (start + i)), 1 ≤ t := by
    intro t ht
    obtain ⟨i, hi, rfl⟩ := List.mem_map.mp ht
    have hiL := List.mem_range.mp hi
    have hrest : x sd.name (start + i) .rest = false := by
      have := hno (start + i) (by omega) (by omega)
      simp at this
      exact this
    have hone' := hone sd.name (List.mem_map_of_mem StaffData.name hsd)
      (start + i) (List.mem_range.mpr (by omega))
    have hpos : 0 < allShiftTypes.countP (fun c => x sd.name (start + i) c) := by omega
    obtain ⟨c, hc, hxc⟩ := List.countP_pos.mp hpos
    have hcne : c ≠ ShiftCode.rest := by
      intro hcr
      rw [hcr, hrest] at hxc
      exact Bool.false_ne_true hxc
    have hcf : c ∈ allShiftTypes.filter (fun c => c ≠ ShiftCode.rest) :=
      List.mem_filter.mpr ⟨hc, by simp [hcne]⟩
    have : 0 < (allShiftTypes.filter (fun c => c ≠ ShiftCode.rest)).countP
        (fun c => x sd.name (start + i) c) :=
      List.countP_pos.mpr ⟨c, hcf, hxc⟩
    unfold workDayCount
    omega
  have hlen : rule.consecutive_work_limit + 1
      ≤ ((List.range (rule.consecutive_work_limit + 1)).map
          (fun i => workDayCount x sd.name D (start + i))).sum := by
    calc rule.consecutive_work_limit + 1
        = ((List.range (rule.consecutive_work_limit + 1)).map
            (fun i => workDayCount x sd.name D (start + i))).length := by simp
      _ ≤ _ := List.length_le_sum_of_one_le _ hterm
  omega

theorem consecutive_work_rest_in_window_witness :
    oneShiftPerDaySat (([⟨"A", [], none, none⟩] : List StaffData).map StaffData.name) 2
        (fun _ d c => decide ((d = 0 ∧ c = ShiftCode.rest) ∨ (d ≠ 0 ∧ c = ShiftCode.early)))
    ∧ consecutiveWorkLimitSat [⟨"A", [], none, none⟩] ⟨0, 1, 0, 0, 0, 0, 0⟩ 2
        (fun _ d c => decide ((d = 0 ∧ c = ShiftCode.rest) ∨ (d ≠ 0 ∧ c = ShiftCode.early)))
    ∧ (0 : Nat) + (1 : Nat) < 2
    ∧ ∃ d, 0 ≤ d ∧ d ≤ 0 + (⟨0, 1, 0, 0, 0, 0, 0⟩ : RuleData).consecutive_work_limit
        ∧ (fun _ d c => decide ((d = 0 ∧ c = ShiftCode.rest) ∨ (d ≠ 0 ∧ c = ShiftCode.early)))
            "A" d ShiftCode.rest = true :=
  ⟨by unfold oneShiftPerDaySat; decide,
   by unfold consecutiveWorkLimitSat; decide,
   by decide,
   consecutive_work_rest_in_window [⟨"A", [], none, none⟩] ⟨0, 1, 0, 0, 0, 0, 0⟩ 2
     (fun _ d c => decide ((d = 0 ∧ c = ShiftCode.rest) ∨ (d ≠ 0 ∧ c = ShiftCode.early)))
     (by unfold oneShiftPerDaySat; decide)
     (by unfold consecutiveWorkLimitSat; decide)
     ⟨"A", [], none, none⟩ (by decide) 0 (by decide)⟩

/-- C8: for a mandatory pairing constraint with `times == "全て"`, the clauses
added by the encoder are satisfied by exactly the assignments in which, on
every day, the base staff being on the source code forces the other staff
onto the peer code; the base staff is the one with the smaller max count for
its respective code, the constraint owner on ties; and no implication is
imposed in the opposite direction (an assignment with the other staff on the
peer code and the base staff off the source code on some day still satisfies
the clauses). -/
theorem pairing_mandatory_all_only_one_way
    (owner peer : StaffData) (cnt tgt : String) (srcT tgtT : ShiftCode)
    (D : Nat) (hne : owner.name ≠ peer.name) :
    (∀ x : Assignment,
      pairingMandatoryAllSat owner peer cnt tgt srcT tgtT D x ↔
        ∀ d, d < D →
          x (pairingBase owner peer cnt tgt srcT tgtT).1 d
              (pairingBase owner peer cnt tgt srcT tgtT).2.1 = true →
          x (pairingBase owner peer cnt tgt srcT tgtT).2.2.1 d
              (pairingBase owner peer cnt tgt srcT tgtT).2.2.2 = true)
    ∧ (shiftMaxOf owner cnt ≤ shiftMaxOf peer tgt →
        pairingBase owner peer cnt tgt srcT tgtT = (owner.name, srcT, peer.name, tgtT))
    ∧ (shiftMaxOf peer tgt < shiftMaxOf owner cnt →
        pairingBase owner peer cnt tgt srcT tgtT = (peer.name, tgtT, owner.name, srcT))
    ∧ (0 < D →
        ∃ y : Assignment,
          pairingMandatoryAllSat owner peer cnt tgt srcT tgtT D y
          ∧ y (pairingBase owner peer cnt tgt srcT tgtT).2.2.1 0
              (pairingBase owner peer cnt tgt srcT tgtT).2.2.2 = true
          ∧ y (pairingBase owner peer cnt tgt srcT tgtT).1 0
              (pairingBase owner peer cnt tgt srcT tgtT).2.1 = false) := by
  have hiff : ∀ x : Assignment,
      pairingMandatoryAllSat owner peer cnt tgt srcT tgtT D x ↔
        ∀ d, d < D →
          x (pairingBase owner peer cnt tgt srcT tgtT).1 d
              (pairingBase owner peer cnt tgt srcT tgtT).2.1 = true →
          x (pairingBase owner peer cnt tgt srcT tgtT).2.2.1 d
              (pairingBase owner peer cnt tgt srcT tgtT).2.2.2 = true := by
    intro x
    constructor
    · rintro ⟨isPair, _, himp⟩ d hd
      exact himp d (List.mem_range.mpr hd)
    · intro h
      refine ⟨fun d => x owner.name d srcT && x peer.name d tgtT, ?_, ?_⟩
      · intro d _
        refine ⟨fun hb => (Bool.and_eq_true _ _ ▸ hb).1,
                fun hb => (Bool.and_eq_true _ _ ▸ hb).2, ?_⟩
        intro hb hboth
        simp only [hboth.1, hboth.2, Bool.and_self] at hb
        exact absurd hb (by simp)
      · intro d hd
        exact h d (List.mem_range.mp hd)
  have hbne : (pairingBase owner peer cnt tgt srcT tgtT).1
      ≠ (pairingBase owner peer cnt tgt srcT tgtT).2.2.1 := by
    unfold pairingBase
    split
    · exact hne
    · exact hne.symm
  refine ⟨hiff, ?_, ?_, ?_⟩
  · intro hle
    unfold pairingBase
    rw [if_pos hle]
  · intro hlt
    unfold pairingBase
    rw [if_neg (by omega)]
  · intro hD
    refine ⟨fun n _ c => decide (n = (pairingBase owner peer cnt tgt srcT tgtT).2.2.1
        ∧ c = (pairingBase owner peer cnt tgt srcT tgtT).2.2.2), ?_, ?_, ?_⟩
    · rw [hiff]
      intro d _ hbase
      simp only [decide_eq_true_eq] at hbase
      exact absurd hbase.1 hbne
    · simp
    · simp only [decide_eq_true_eq, decide_eq_false_iff_not]
      intro hcontra
      exact hbne hcontra.1

theorem pairing_mandatory_all_only_one_way_witness :
    ((⟨"A", [], none, none⟩ : StaffData).name ≠ (⟨"B", [], none, none⟩ : StaffData).name)
    ∧ (shiftMaxOf ⟨"A", [], none, none⟩ "夜勤" ≤ shiftMaxOf ⟨"B", [], none, none⟩ "夜勤"
        → pairingBase ⟨"A", [], none, none⟩ ⟨"B", [], none, none⟩ "夜勤" "夜勤"
            ShiftCode.nightIn ShiftCode.nightIn
          = ("A", ShiftCode.nightIn, "B", ShiftCode.nightIn))
    ∧ pairingBase ⟨"A", [], none, none⟩ ⟨"B", [], none, none⟩ "夜勤" "夜勤"
        ShiftCode.nightIn ShiftCode.nightIn
      = ("A", ShiftCode.nightIn, "B", ShiftCode.nightIn) :=
  ⟨by decide,
   (pairing_mandatory_all_only_one_way ⟨"A", [], none, none⟩ ⟨"B", [], none, none⟩
     "夜勤" "夜勤" ShiftCode.nightIn ShiftCode.nightIn 1 (by decide)).2.1,
   (pairing_mandatory_all_only_one_way ⟨"A", [], none, none⟩ ⟨"B", [], none, none⟩
     "夜勤" "夜勤" ShiftCode.nightIn ShiftCode.nightIn 1 (by decide)).2.1
     (by decide)⟩

/-- C1: in a solution satisfying the night-pattern and required-staffing
clauses, for every staff: night-in on a day with two following days in the
month forces night-out the next day and rest the day after; night-out on any
day after the first forces night-in the previous day (on the last day this
follows from the separate night-in and night-out staffing equalities);
night-out on the first day forces rest on the second; night-in on the
second-to-last day forces night-out on the last; and a staff whose night max
count is 0 never has night-out on the first day. -/
theorem night_macro_pattern
    (sds : List StaffData) (rule : RuleData) (isSunday : Nat → Bool) (D : Nat)
    (x : Assignment) (hD : 3 ≤ D)
    (hn : nightPatternSat sds D x)
    (hr : requiredStaffSat (sds.map StaffData.name) rule isSunday D x) :
    ∀ sd ∈ sds,
      (∀ d, d + 2 < D → x sd.name d .nightIn = true →
        x sd.name (d + 1) .nightOut = true ∧ x sd.name (d + 2) .rest = true)
      ∧ (∀ d, 1 ≤ d → d < D → x sd.name d .nightOut = true →
          x sd.name (d - 1) .nightIn = true)
      ∧ (x sd.name 0 .nightOut = true → x sd.name 1 .rest = true)
      ∧ (x sd.name (D - 2) .nightIn = true → x sd.name (D - 1) .nightOut = true)
      ∧ (nightMax sd = 0 → x sd.name 0 .nightOut = false) := by
  obtain ⟨hzero, hmid, hfirst, hlast⟩ := hn
  intro sd hsd
  have hname : sd.name ∈ sds.map StaffData.name := List.mem_map_of_mem StaffData.name hsd
  refine ⟨?_, ?_, fun h0 => hfirst sd.name hname (by omega) h0,
          fun hin => hlast sd.name hname (by omega) hin,
          fun hz => hzero sd hsd hz⟩
  · intro d hd hx
    have h := hmid sd.name hname d (List.mem_range.mpr (by omega))
    exact ⟨h.1 hx, h.2.1 hx⟩
  · intro d hd1 hdD hx
    by_cases hdlast : d = D - 1
    · subst hdlast
      have hcA := (hr (D - 2) (List.mem_range.mpr (by omega))).2.2.1
      have hcB := (hr (D - 1) (List.mem_range.mpr (by omega))).2.2.2.1
      have hcnt : (sds.map StaffData.name).countP (fun s => x s (D - 2) .nightIn)
          = (sds.map StaffData.name).countP (fun s => x s (D - 1) .nightOut) := by
        unfold dayStaffCount at hcA hcB
        have := hcA.trans hcB.symm
        exact_mod_cast this
      have himp : ∀ s ∈ sds.map StaffData.name,
          (fun s => x s (D - 2) .nightIn) s = true →
          (fun s => x s (D - 1) .nightOut) s = true :=
        fun s hs hxs => hlast s hs (by omega) hxs
      have hrev := countP_imp_rev himp hcnt sd.name hname hx
      have heq : D - 1 - 1 = D - 2 := by omega
      rw [heq]
      exact hrev
    · have h := (hmid sd.name hname (d - 1) (List.mem_range.mpr (by omega))).2.2
      have heq : d - 1 + 1 = d := by omega
      rw [heq] at h
      exact h hx

theorem night_macro_pattern_witness :
    (3 ≤ 3)
    ∧ nightPatternSat [⟨"A", [], none, none⟩] 3 (fun _ _ c => decide (c = ShiftCode.rest))
    ∧ ((fun (_ : String) (_ : Nat) (c : ShiftCode) => decide (c = ShiftCode.rest))
          "A" 0 .nightOut = true →
        (fun (_ : String) (_ : Nat) (c : ShiftCode) => decide (c = ShiftCode.rest))
          "A" 1 .rest = true)
    ∧ (nightMax ⟨"A", [], none, none⟩ = 0 →
        (fun (_ : String) (_ : Nat) (c : ShiftCode) => decide (c = ShiftCode.rest))
          "A" 0 .nightOut = false) := by
  have hsat : requiredStaffSat (([⟨"A", [], none, none⟩] : List StaffData).map StaffData.name)
      ⟨5, 5, 0, 0, 0, 0, 0⟩ (fun _ => false) 3 (fun _ _ c => decide (c = ShiftCode.rest)) := by
    intro d hd
    simp only [List.mem_range] at hd
    have hcond : ¬ (|pyMod1 (dayShiftReq ⟨5, 5, 0, 0, 0, 0, 0⟩ (fun _ => false) d) - 1/2|
        < 1/100) := by
      rw [abs_lt]
      norm_num [pyMod1, dayShiftReq]
    refine ⟨?_, ?_, ?_, ?_, ?_⟩
    · interval_cases d <;> decide
    · interval_cases d <;> decide
    · interval_cases d <;> decide
    · interval_cases d <;> decide
    · rw [if_neg hcond]
      have hp : pyInt (dayShiftReq ⟨5, 5, 0, 0, 0, 0, 0⟩ (fun _ => false) d) = 0 := by
        norm_num [pyInt, dayShiftReq]
      rw [hp]
      interval_cases d <;> decide
  have h := night_macro_pattern [⟨"A", [], none, none⟩] ⟨5, 5, 0, 0, 0, 0, 0⟩
    (fun _ => false) 3 (fun _ _ c => decide (c = ShiftCode.rest)) (by decide)
    (by unfold nightPatternSat; decide) hsat ⟨"A", [], none, none⟩ (by decide)
  exact ⟨by decide, by unfold nightPatternSat; decide, h.2.2.1, h.2.2.2.2⟩

theorem buildShiftsDictAux_length (entries : List SolEntry) :
    ∀ (acc : String → Option (List String)),
      (∀ n arr, acc n = some arr → arr.length = 32) →
      ∀ n arr, buildShiftsDictAux acc entries n = some arr → arr.length = 32 := by
  induction entries with
  | nil =>
      intro acc hacc n arr h
      exact hacc n arr h
  | cons e rest ih =>
      intro acc hacc n arr h
      simp only [buildShiftsDictAux] at h
      refine ih _ ?_ n arr h
      intro m brr hm
      by_cases hme : m = e.staff_name
      · rw [if_pos hme] at hm
        have hbrr := Option.some.inj hm
        rw [← hbrr, List.length_set]
        cases hae : acc e.staff_name with
        | none => simp [hae]
        | some a => simp [hae, hacc e.staff_name a hae]
      · rw [if_neg hme] at hm
        exact hacc m brr hm

theorem buildShiftsDictAux_cellVal (entries : List SolEntry) :
    ∀ (acc : String → Option (List String)) (s : String) (d : Nat), d < 32 →
      (∀ n arr, acc n = some arr → arr.length = 32) →
      cellVal (buildShiftsDictAux acc entries) s d
        = (entries.filter (fun e => e.staff_name = s ∧ e.day = d)).foldl
            (fun _ e => e.shift_type) (cellVal acc s d) := by
  induction entries with
  | nil =>
      intro acc s d _ _
      simp [buildShiftsDictAux]
  | cons e rest ih =>
      intro acc s d hd hacc
      have hcurlen : ((acc e.staff_name).getD (List.replicate 32 "")).length = 32 := by
        cases hae : acc e.staff_name with
        | none => simp
        | some a => simp [hacc e.staff_name a hae]
      have hstep : buildShiftsDictAux acc (e :: rest)
          = buildShiftsDictAux
              (fun n => if n = e.staff_name
                then some (((acc e.staff_name).getD (List.replicate 32 "")).set
                  e.day e.shift_type)
                else acc n)
              rest := rfl
      rw [hstep]
      have hacc2 : ∀ n arr,
          (if n = e.staff_name
            then some (((acc e.staff_name).getD (List.replicate 32 "")).set
              e.day e.shift_type)
            else acc n) = some arr → arr.length = 32 := by
        intro m brr hm
        by_cases hme : m = e.staff_name
        · rw [if_pos hme] at hm
          rw [← Option.some.inj hm, List.length_set]
          exact hcurlen
        · rw [if_neg hme] at hm
          exact hacc m brr hm
      rw [ih _ s d hd hacc2]
      by_cases hpe : e.staff_name = s ∧ e.day = d
      · rw [List.filter_cons_of_pos (by simpa using hpe)]
        rw [List.foldl_cons]
        have hval : cellVal
            (fun n => if n = e.staff_name
              then some (((acc e.staff_name).getD (List.replicate 32 "")).set
                e.day e.shift_type)
              else acc n) s d = e.shift_type := by
          unfold cellVal
          dsimp only
          rw [if_pos hpe.1.symm, Option.getD_some, hpe.2]
          have hdlen : d < ((acc e.staff_name).getD (List.replicate 32 "")).length := by
            rw [hcurlen]
            exact hd
          rw [List.getD_eq_getElem?_getD, List.getElem?_set_eq_of_lt _ hdlen]
          rfl
        rw [hval]
      · rw [List.filter_cons_of_neg (by simpa using hpe)]
        have hval : cellVal
            (fun n => if n = e.staff_name
              then some (((acc e.staff_name).getD (List.replicate 32 "")).set
                e.day e.shift_type)
              else acc n) s d = cellVal acc s d := by
          unfold cellVal
          dsimp only
          by_cases hse : s = e.staff_name
          · rw [if_pos hse, Option.getD_some]
            have hdne : e.day ≠ d := by
              intro hdd
              exact hpe ⟨hse.symm, hdd⟩
            rw [hse]
            simp [List.getD_eq_getElem?_getD, List.getElem?_set_ne hdne]
          · rw [if_neg hse]
        rw [hval]

theorem foldl_const_eq_getLast {α β : Type} (g : α → β) :
    ∀ (l : List α) (init : β),
      l.foldl (fun _ e => g e) init = ((l.getLast?).map g).getD init := by
  intro l
  induction l with
  | nil => intro init; rfl
  | cons a t ih =>
      intro init
      rw [List.foldl_cons, ih (g a)]
      cases t with
      | nil => simp
      | cons b t2 =>
          obtain ⟨y, hy⟩ := Option.isSome_iff_exists.mp
            (List.getLast?_isSome.mpr (List.cons_ne_nil b t2))
          rw [List.getLast?_cons_cons, hy]
          simp

/-- C6 counterexample: converting the single solution entry for staff `A`,
day 1, code `▲` yields an array of 32 (not 31) strings whose index 0 (the
claimed slot of day 1) is the empty string: the code of day `d` is stored at
index `d`, not `d - 1`. -/
theorem shifts_dict_claim_counterexample :
    ((buildShiftsDict [⟨"A", 1, "▲"⟩]) "A").map List.length ≠ some 31
    ∧ ((buildShiftsDict [⟨"A", 1, "▲"⟩]) "A").map List.length = some 32
    ∧ ((buildShiftsDict [⟨"A", 1, "▲"⟩]) "A").map (fun a => a.getD 0 "") = some ""
    ∧ ((buildShiftsDict [⟨"A", 1, "▲"⟩]) "A").map (fun a => a.getD 1 "") = some "▲" := by
  refine ⟨?_, ?_, ?_, ?_⟩ <;> decide

/-- C6 amended: on success the output document maps each staff with at least
one solution entry to a 32-element string array in which the code for day `d`
(1-based) is stored at index `d`; index 0 is the empty string, every index
`1..days_in_month` holds that day's (non-empty) code, and every index beyond
`days_in_month` is the empty string. -/
theorem shifts_dict_shape
    (entries : List SolEntry) (s : String) (Dm : Nat) (arr : List String)
    (hcover : ∀ d, 1 ≤ d → d ≤ Dm → ∃ e ∈ entries, e.staff_name = s ∧ e.day = d)
    (hrange : ∀ e ∈ entries, e.staff_name = s → 1 ≤ e.day ∧ e.day ≤ Dm ∧ e.shift_type ≠ "")
    (hsome : buildShiftsDict entries s = some arr) :
    arr.length = 32
    ∧ arr.getD 0 "" = ""
    ∧ (∀ d, 1 ≤ d → d ≤ Dm → d < 32 →
        ∃ e ∈ entries, e.staff_name = s ∧ e.day = d ∧ arr.getD d "" = e.shift_type
          ∧ arr.getD d "" ≠ "")
    ∧ (∀ d, Dm < d → d < 32 → arr.getD d "" = "") := by
  have hsome' : buildShiftsDictAux (fun _ => none) entries s = some arr := hsome
  have hnone : ∀ (n : String) (a : List String),
      (fun (_ : String) => (none : Option (List String))) n = some a → a.length = 32 := by
    intro n a h
    exact Option.noConfusion h
  have hlen : arr.length = 32 :=
    buildShiftsDictAux_length entries (fun _ => none) hnone s arr hsome'
  have hrep : ∀ d : Nat, (List.replicate 32 "").getD d "" = "" := by
    intro d
    rw [List.getD_eq_getElem?_getD]
    simp only [List.getElem?_getD_replicate_default_eq]
  have hcell : ∀ d, d < 32 → arr.getD d ""
      = (entries.filter (fun e => e.staff_name = s ∧ e.day = d)).foldl
          (fun _ e => e.shift_type) "" := by
    intro d hd
    have h := buildShiftsDictAux_cellVal entries (fun _ => none) s d hd hnone
    unfold cellVal at h
    rw [hsome', Option.getD_some] at h
    simp only [Option.getD_none] at h
    rw [hrep d] at h
    exact h
  refine ⟨hlen, ?_, ?_, ?_⟩
  · rw [hcell 0 (by omega)]
    have hfil : entries.filter (fun e => e.staff_name = s ∧ e.day = 0) = [] := by
      rw [List.filter_eq_nil_iff]
      intro e he
      simp only [decide_eq_true_eq, not_and]
      intro hes hed
      have := (hrange e he hes).1
      omega
    rw [hfil]
    rfl
  · intro d hd1 hdDm hd32
    have h := hcell d hd32
    obtain ⟨e0, he0, hs0, hday0⟩ := hcover d hd1 hdDm
    have he0f : e0 ∈ entries.filter (fun e => e.staff_name = s ∧ e.day = d) :=
      List.mem_filter.mpr ⟨he0, by simp [hs0, hday0]⟩
    have hne : entries.filter (fun e => e.staff_name = s ∧ e.day = d) ≠ [] := by
      intro hnil
      rw [hnil] at he0f
      exact List.not_mem_nil e0 he0f
    obtain ⟨last, hlast⟩ :=
      Option.isSome_iff_exists.mp (List.getLast?_isSome.mpr hne)
    rw [foldl_const_eq_getLast, hlast] at h
    have hlastmem : last ∈ entries.filter (fun e => e.staff_name = s ∧ e.day = d) := by
      obtain ⟨hh, heq⟩ := List.mem_getLast?_eq_getLast (Option.mem_def.mpr hlast)
      rw [heq]
      exact List.getLast_mem hh
    have hlf := List.mem_filter.mp hlastmem
    have hprops : last.staff_name = s ∧ last.day = d := by simpa using hlf.2
    refine ⟨last, hlf.1, hprops.1, hprops.2, by simpa using h, ?_⟩
    rw [h]
    simpa using (hrange last hlf.1 hprops.1).2.2
  · intro d hdDm hd32
    rw [hcell d hd32]
    have hfil : entries.filter (fun e => e.staff_name = s ∧ e.day = d) = [] := by
      rw [List.filter_eq_nil_iff]
      intro e he
      simp only [decide_eq_true_eq, not_and]
      intro hes hed
      have := (hrange e he hes).2.1
      omega
    rw [hfil]
    rfl

theorem shifts_dict_shape_witness :
    (∀ d, 1 ≤ d → d ≤ 1 →
      ∃ e ∈ [(⟨"A", 1, "▲"⟩ : SolEntry)], e.staff_name = "A" ∧ e.day = d)
    ∧ (∀ e ∈ [(⟨"A", 1, "▲"⟩ : SolEntry)], e.staff_name = "A" →
        1 ≤ e.day ∧ e.day ≤ 1 ∧ e.shift_type ≠ "")
    ∧ buildShiftsDict [(⟨"A", 1, "▲"⟩ : SolEntry)] "A"
        = some ((List.replicate 32 "").set 1 "▲")
    ∧ ((List.replicate 32 "").set 1 "▲").length = 32
    ∧ ((List.replicate 32 "").set 1 "▲").getD 0 "" = "" :=
  ⟨fun d h1 h2 => by
      have hd : d = 1 := Nat.le_antisymm h2 h1
      subst hd
      decide,
   by decide,
   by decide,
   let h := shifts_dict_shape [(⟨"A", 1, "▲"⟩ : SolEntry)] "A" 1
     ((List.replicate 32 "").set 1 "▲")
     (fun d h1 h2 => by
        have hd : d = 1 := Nat.le_antisymm h2 h1
        subst hd
        decide)
     (by decide)
     (by decide)
   ⟨h.1, h.2.1⟩⟩

end ShiftApi
